import Mathlib

/- Shallow embedding of the BLE Current Time Service sketch in src/src/main.cpp
   (second revision of the sketch, the one that registers the Current Time
   write handler; claim line references 411-729 point into it).
   Machine integers are modelled as Nat with explicit reductions modulo 2^8,
   2^16 and 2^32 at exactly the points where the C types (uint8_t, uint16_t,
   unsigned long) truncate. -/

namespace Watch

/-- Modulus of the 32-bit `unsigned long` millisecond counter (`millis()`). -/
def U32 : Nat := 4294967296

/-- The `DateTime` struct of main.cpp: `year` is `uint16_t`, every other field
is `uint8_t`.  Fields are Nats; all mutations below reduce modulo the C type's
modulus at the points the C code stores into the struct. -/
structure DateTime where
  year : Nat
  month : Nat
  day : Nat
  hour : Nat
  minute : Nat
  second : Nat
  dayOfWeek : Nat
  deriving DecidableEq

/-- `daysInMonth(uint16_t year, uint8_t month)` of main.cpp (lines 411-427):
30 for Apr/Jun/Sep/Nov, February by the Gregorian leap rule, 31 otherwise. -/
def daysInMonth (year month : Nat) : Nat :=
  if month = 4 ∨ month = 6 ∨ month = 9 ∨ month = 11 then 30
  else if month = 2 then
    if (year % 4 = 0 ∧ year % 100 ≠ 0) ∨ year % 400 = 0 then 29 else 28
  else 31

/-- Every month length returned by `daysInMonth` is at least 28. -/
lemma daysInMonth_ge (year month : Nat) : 28 ≤ daysInMonth year month := by
  unfold daysInMonth
  split
  · omega
  · split
    · split <;> omega
    · omega

/-- Every month length returned by `daysInMonth` is at most 31. -/
lemma daysInMonth_le (year month : Nat) : daysInMonth year month ≤ 31 := by
  unfold daysInMonth
  split
  · omega
  · split
    · split <;> omega
    · omega

/-- The `while (currentDateTime.day > monthDays)` loop of `updateInternalTime`
(lines 456-467): repeatedly subtract the current month's length from `day`,
stepping `month` (a `uint8_t`, hence the mod 256) and wrapping `month > 12`
into a `year` increment (`year` is `uint16_t`, hence the mod 65536). -/
def normalizeDate (year month day : Nat) : Nat × Nat × Nat :=
  let monthDays := daysInMonth year month
  if h : monthDays < day then
    let day2 := day - monthDays
    let month2 := (month + 1) % 256
    if 12 < month2 then
      normalizeDate ((year + 1) % 65536) 1 day2
    else
      normalizeDate year month2 day2
  else
    (year, month, day)
termination_by day
decreasing_by
  all_goals
    have h28 := daysInMonth_ge year month
    omega

/-- The rollover cascade of `updateInternalTime` (lines 438-468) applied to the
`DateTime` struct for `elapsedSeconds = e`: `second += e` truncates at the
`uint8_t` store (mod 256), then the seconds→minutes→hours→days carries fire
only behind their respective `>= 60` / `>= 60` / `>= 24` guards, `dayOfWeek`
is advanced with C `int` arithmetic (`%` is truncated division's remainder,
`Int.tmod`), and the day/month/year loop is `normalizeDate`. -/
def tick (dt : DateTime) (e : Nat) : DateTime :=
  let second1 := (dt.second + e) % 256
  if 60 ≤ second1 then
    let minute1 := (dt.minute + second1 / 60) % 256
    let second2 := second1 % 60
    if 60 ≤ minute1 then
      let hour1 := (dt.hour + minute1 / 60) % 256
      let minute2 := minute1 % 60
      if 24 ≤ hour1 then
        let daysElapsed := hour1 / 24
        let day1 := (dt.day + daysElapsed) % 256
        let hour2 := hour1 % 24
        let dayOfWeek1 := ((((dt.dayOfWeek : Int) - 1 + (daysElapsed : Int)).tmod 7) + 1).toNat % 256
        let ymd := normalizeDate dt.year dt.month day1
        { year := ymd.1, month := ymd.2.1, day := ymd.2.2,
          hour := hour2, minute := minute2, second := second2,
          dayOfWeek := dayOfWeek1 }
      else
        { dt with second := second2, minute := minute2, hour := hour1 }
    else
      { dt with second := second2, minute := minute1 }
  else
    { dt with second := second1 }

/-- The clock state owned by the sketch: the `currentDateTime` struct plus the
`lastTimeUpdateMillis` reference (an `unsigned long`). -/
structure ClockState where
  dt : DateTime
  lastRef : Nat
  deriving DecidableEq

/-- `updateInternalTime()` (lines 430-473) at millisecond counter `now`:
the elapsed time `currentMillis - lastTimeUpdateMillis` is 32-bit unsigned
subtraction; if at least 1000 ms elapsed, whole seconds are pushed through
`tick` and `lastTimeUpdateMillis += elapsedSeconds * 1000` keeps the sub-second
remainder (the addition also wraps at 2^32). -/
def advance (now : Nat) (s : ClockState) : ClockState :=
  let elapsedMillis := (now % U32 + U32 - s.lastRef % U32) % U32
  if 1000 ≤ elapsedMillis then
    let elapsedSeconds := elapsedMillis / 1000
    { dt := tick s.dt elapsedSeconds,
      lastRef := (s.lastRef + elapsedSeconds * 1000) % U32 }
  else
    s

/-- The initial value of `currentDateTime` and `lastTimeUpdateMillis` (line
385): 2024-01-01 00:00:00, Monday. -/
def initialClock : ClockState :=
  { dt := { year := 2024, month := 1, day := 1, hour := 0, minute := 0,
            second := 0, dayOfWeek := 1 },
    lastRef := 0 }

/-- The at-rest range invariant of the clock (spec section 3): every field of
the struct inside its calendar range, with `day` bounded by the actual month
length. -/
abbrev AtRest (dt : DateTime) : Prop :=
  1 ≤ dt.month ∧ dt.month ≤ 12 ∧ 1 ≤ dt.day ∧
  dt.day ≤ daysInMonth dt.year dt.month ∧
  dt.hour < 24 ∧ dt.minute < 60 ∧ dt.second < 60 ∧
  1 ≤ dt.dayOfWeek ∧ dt.dayOfWeek ≤ 7

/-- Repeated calls of `updateInternalTime` at the listed counter values. -/
def advanceAll (s : ClockState) (ts : List Nat) : ClockState :=
  ts.foldl (fun st t => advance t st) s

/-- Counter values produced by a sequence of deltas starting at counter `r`:
the i-th call happens at `r + d1 + ... + di`. -/
def stepTimes (r : Nat) : List Nat → List Nat
  | [] => []
  | d :: ds => (r + d) :: stepTimes (r + d) ds

/-- The 10-byte payload assembled by `writeCurrentTime()` (lines 476-496):
year little-endian (`& 0xFF`, `>> 8 & 0xFF`), then month, day, hour, minute,
second, day-of-week, a zero fractions byte and adjust-reason 1. -/
def writeCurrentTime (dt : DateTime) : List Nat :=
  [dt.year % 256, dt.year / 256 % 256, dt.month, dt.day, dt.hour,
   dt.minute, dt.second, dt.dayOfWeek, 0, 1]

/-- The field extraction of `currentTimeWrittenHandler` (lines 599-607): only a
payload of exactly 10 bytes parses; `year = data[0] | (data[1] << 8)`, the
fractions and adjust-reason bytes are ignored. -/
def parseCurrentTime (payload : List Nat) : Option DateTime :=
  match payload with
  | [b0, b1, b2, b3, b4, b5, b6, b7, _fr, _adj] =>
    some { year := b0 ||| (b1 <<< 8), month := b2, day := b3, hour := b4,
           minute := b5, second := b6, dayOfWeek := b7 }
  | _ => none

/-- Error outcomes of a Current Time write, named as in spec section 7. -/
inductive WriteError where
  | malformedPayload
  | outOfRangeField
  deriving DecidableEq

/-- `currentTimeWrittenHandler` (lines 576-662) as a function of the received
payload, the millisecond counter at the time of the write, and the clock
state: a non-10-byte payload is rejected; a decoded candidate is accepted only
when each field passes the range check on lines 610-612, in which case all
seven fields are overwritten and `lastTimeUpdateMillis = millis()`. -/
def currentTimeWrittenHandler (payload : List Nat) (now : Nat) (s : ClockState) :
    ClockState × Option WriteError :=
  match parseCurrentTime payload with
  | some cand =>
    if 1 ≤ cand.month ∧ cand.month ≤ 12 ∧ 1 ≤ cand.day ∧ cand.day ≤ 31 ∧
       cand.hour ≤ 23 ∧ cand.minute ≤ 59 ∧ cand.second ≤ 59 ∧
       1 ≤ cand.dayOfWeek ∧ cand.dayOfWeek ≤ 7 then
      ({ dt := cand, lastRef := now }, none)
    else
      (s, some WriteError.outOfRangeField)
  | none => (s, some WriteError.malformedPayload)

/-- Link-machine state of the sketch: `centralConnected`, the remembered peer
(`connectedCentral`, identified here by a number), the LED level, and whether
the `tLedBlink` task is enabled. -/
structure LinkState where
  centralConnected : Bool
  connectedCentral : Nat
  ledState : Bool
  tLedBlinkEnabled : Bool
  deriving DecidableEq

/-- Externally visible BLE calls made by the event handlers. -/
inductive BleEffect where
  | writeCurrentTimeChar
  | writeLocalTimeInfoChar
  | writeRefTimeInfoChar
  | stopAdvertiseCall
  | advertiseCall
  deriving DecidableEq

/-- `blePeripheralConnectHandler` (lines 664-693): unconditionally drive the
LED high and disable the blink task; then, only if not already connected,
record the peer, mark connected and push the three characteristics once. -/
def blePeripheralConnectHandler (central : Nat) (s : LinkState) :
    LinkState × List BleEffect :=
  let s1 := { s with ledState := true, tLedBlinkEnabled := false }
  if s1.centralConnected = false then
    ({ s1 with centralConnected := true, connectedCentral := central },
     [BleEffect.writeCurrentTimeChar, BleEffect.writeLocalTimeInfoChar,
      BleEffect.writeRefTimeInfoChar])
  else
    (s1, [])

/-- `blePeripheralDisconnectHandler` (lines 695-729): unconditionally drive the
LED low; then, only if currently connected, mark disconnected, re-enable the
blink task and restart advertising (stop, then start). -/
def blePeripheralDisconnectHandler (_central : Nat) (s : LinkState) :
    LinkState × List BleEffect :=
  let s1 := { s with ledState := false }
  if s1.centralConnected = true then
    ({ s1 with centralConnected := false, tLedBlinkEnabled := true },
     [BleEffect.stopAdvertiseCall, BleEffect.advertiseCall])
  else
    (s1, [])

/-- C `int` arithmetic of the day-of-week update: for a day-of-week of at
least 1 the truncated remainder coincides with plain Nat arithmetic. -/
lemma dow_step (w d : Nat) (hw : 1 ≤ w) :
    ((((w : Int) - 1 + (d : Int)).tmod 7) + 1).toNat % 256 = (w - 1 + d) % 7 + 1 := by
  have h1 : ((w : Int) - 1 + (d : Int)) = ((w - 1 + d : Nat) : Int) := by
    push_cast
    omega
  rw [h1, Int.tmod_eq_emod (by exact_mod_cast Nat.zero_le _) (by norm_num)]
  omega

/-- Little-endian recomposition: the two year bytes of the encode layout
reassemble to the original 16-bit value. -/
lemma lor_byte (y : Nat) (hy : y < 65536) :
    (y % 256) ||| ((y / 256 % 256) <<< 8) = y := by
  have h256 : (256 : Nat) = 2 ^ 8 := by norm_num
  have hdiv : y / 256 = y >>> 8 := by
    rw [Nat.shiftRight_eq_div_pow]
  apply Nat.eq_of_testBit_eq
  intro i
  rw [hdiv, h256]
  simp only [Nat.testBit_or, Nat.testBit_shiftLeft, Nat.testBit_mod_two_pow,
    Nat.testBit_shiftRight]
  rcases Nat.lt_or_ge i 8 with h8 | h8
  · have h2 : ¬ (i ≥ 8) := by omega
    simp [h8, h2]
  · rcases Nat.lt_or_ge i 16 with h16 | h16
    · have h1 : ¬ (i < 8) := by omega
      have h3 : i - 8 < 8 := by omega
      have h4 : 8 + (i - 8) = i := by omega
      simp [h1, h8, h3, h4]
    · have hbit : y.testBit i = false := by
        apply Nat.testBit_lt_two_pow
        calc y < 65536 := hy
          _ = 2 ^ 16 := by norm_num
          _ ≤ 2 ^ i := Nat.pow_le_pow_right (by norm_num) h16
      have h1 : ¬ (i < 8) := by omega
      have h3 : ¬ (i - 8 < 8) := by omega
      simp [h1, h3, hbit]

/-- The day/month loop does nothing when the day already fits the month. -/
lemma normalizeDate_fix (y m d : Nat) (h : d ≤ daysInMonth y m) :
    normalizeDate y m d = (y, m, d) := by
  unfold normalizeDate
  rw [dif_neg (by omega : ¬ daysInMonth y m < d)]

/-- The day/month loop turns any month in range and positive day into a month
in range with a day that fits it. -/
lemma normalizeDate_bounds (y m d : Nat) (hm1 : 1 ≤ m) (hm2 : m ≤ 12) (hd : 1 ≤ d) :
    1 ≤ (normalizeDate y m d).2.1 ∧ (normalizeDate y m d).2.1 ≤ 12 ∧
    1 ≤ (normalizeDate y m d).2.2 ∧
    (normalizeDate y m d).2.2 ≤
      daysInMonth (normalizeDate y m d).1 (normalizeDate y m d).2.1 := by
  induction d using Nat.strong_induction_on generalizing y m with
  | _ d ih =>
    have h28 := daysInMonth_ge y m
    unfold normalizeDate
    by_cases h : daysInMonth y m < d
    · rw [dif_pos h]
      have hlt : d - daysInMonth y m < d := by omega
      have hd1 : 1 ≤ d - daysInMonth y m := by omega
      have hmod : (m + 1) % 256 = m + 1 := Nat.mod_eq_of_lt (by omega)
      rw [hmod]
      by_cases h13 : 12 < m + 1
      · rw [if_pos h13]
        exact ih _ hlt _ _ (by omega) (by omega) hd1
      · rw [if_neg h13]
        exact ih _ hlt _ _ (by omega) (by omega) hd1
    · rw [dif_neg h]
      exact ⟨hm1, hm2, hd, by show d ≤ daysInMonth y m; omega⟩

/-- Unfolding of the at-rest invariant on a structure literal. -/
lemma atRest_mk (y mo d h mi s w : Nat) :
    AtRest ⟨y, mo, d, h, mi, s, w⟩ ↔
      (1 ≤ mo ∧ mo ≤ 12 ∧ 1 ≤ d ∧ d ≤ daysInMonth y mo ∧
       h < 24 ∧ mi < 60 ∧ s < 60 ∧ 1 ≤ w ∧ w ≤ 7) :=
  Iff.rfl

/-- The rollover cascade keeps every field of the struct in its at-rest range,
for every elapsed-seconds value (truncating or not). -/
lemma tick_atRest (dt : DateTime) (e : Nat) (h : AtRest dt) : AtRest (tick dt e) := by
  obtain ⟨hm1, hm2, hd1, hd2, hh, hmin, hs, hw1, hw2⟩ := h
  have hdle := daysInMonth_le dt.year dt.month
  simp only [tick]
  split
  next c1 =>
    split
    next c2 =>
      split
      next c3 =>
        rw [atRest_mk]
        have hday : 1 ≤ (dt.day +
            (dt.hour + (dt.minute + (dt.second + e) % 256 / 60) % 256 / 60) % 256 / 24) % 256 := by
          omega
        have hnb := normalizeDate_bounds dt.year dt.month _ hm1 hm2 hday
        refine ⟨hnb.1, hnb.2.1, hnb.2.2.1, hnb.2.2.2, by omega, by omega, by omega, ?_, ?_⟩
        · rw [dow_step _ _ hw1]
          omega
        · rw [dow_step _ _ hw1]
          omega
      next c3 =>
        rw [atRest_mk]
        omega
    next c2 =>
      rw [atRest_mk]
      omega
  next c1 =>
    rw [atRest_mk]
    omega

/-- Closed-form description of one rollover pass in the regime where the
uint8_t seconds accumulator does not wrap: the elapsed seconds are folded into
the total second-of-day and re-split positionally; proven equal to `tick`
below and used only to show that two non-truncating passes compose. -/
def tickSpec (dt : DateTime) (e : Nat) : DateTime :=
  let T := dt.hour * 3600 + dt.minute * 60 + dt.second + e
  let ymd := normalizeDate dt.year dt.month (dt.day + T / 86400)
  { year := ymd.1, month := ymd.2.1, day := ymd.2.2,
    hour := T / 3600 % 24, minute := T / 60 % 60, second := T % 60,
    dayOfWeek := (dt.dayOfWeek - 1 + T / 86400) % 7 + 1 }

/-- In the non-wrapping regime the cascade computes exactly the positional
re-split of the total elapsed seconds. -/
lemma tick_eq_tickSpec (dt : DateTime) (e : Nat) (h : AtRest dt)
    (he : dt.second + e < 256) : tick dt e = tickSpec dt e := by
  obtain ⟨hm1, hm2, hd1, hd2, hh, hmin, hs, hw1, hw2⟩ := h
  have hdle := daysInMonth_le dt.year dt.month
  simp only [tick, tickSpec]
  split
  next c1 =>
    split
    next c2 =>
      split
      next c3 =>
        simp only [DateTime.mk.injEq]
        have harg : (dt.day +
            (dt.hour + (dt.minute + (dt.second + e) % 256 / 60) % 256 / 60) % 256 / 24) % 256 =
            dt.day + (dt.hour * 3600 + dt.minute * 60 + dt.second + e) / 86400 := by
          omega
        refine ⟨by rw [harg], by rw [harg], by rw [harg], by omega, by omega, by omega, ?_⟩
        rw [dow_step _ _ hw1]
        omega
      next c3 =>
        simp only [DateTime.mk.injEq]
        have harg : dt.day + (dt.hour * 3600 + dt.minute * 60 + dt.second + e) / 86400 =
            dt.day := by omega
        rw [harg, normalizeDate_fix _ _ _ hd2]
        refine ⟨rfl, rfl, rfl, by omega, by omega, by omega, by omega⟩
    next c2 =>
      simp only [DateTime.mk.injEq]
      have harg : dt.day + (dt.hour * 3600 + dt.minute * 60 + dt.second + e) / 86400 =
          dt.day := by omega
      rw [harg, normalizeDate_fix _ _ _ hd2]
      refine ⟨rfl, rfl, rfl, by omega, by omega, by omega, by omega⟩
  next c1 =>
    simp only [DateTime.mk.injEq]
    have harg : dt.day + (dt.hour * 3600 + dt.minute * 60 + dt.second + e) / 86400 =
        dt.day := by omega
    rw [harg, normalizeDate_fix _ _ _ hd2]
    refine ⟨rfl, rfl, rfl, by omega, by omega, by omega, by omega⟩

/-- Two positional re-splits compose: folding `e1` then `e2` seconds into the
clock equals folding `e1 + e2` at once, in the bounded regime where at most
one day boundary is crossed. -/
lemma tickSpec_tickSpec (dt : DateTime) (e1 e2 : Nat) (h : AtRest dt)
    (hle : e1 + e2 ≤ 196) :
    tickSpec (tickSpec dt e1) e2 = tickSpec dt (e1 + e2) := by
  obtain ⟨hm1, hm2, hd1, hd2, hh, hmin, hs, hw1, hw2⟩ := h
  have hdle := daysInMonth_le dt.year dt.month
  simp only [tickSpec, DateTime.mk.injEq]
  set T1 := dt.hour * 3600 + dt.minute * 60 + dt.second + e1 with hT1
  have hd1cases : T1 / 86400 = 0 ∨ T1 / 86400 = 1 := by omega
  rcases hd1cases with h0 | h1
  · rw [show dt.day + T1 / 86400 = dt.day from by omega,
      normalizeDate_fix dt.year dt.month dt.day hd2]
    dsimp only
    have harg : dt.day + (T1 / 3600 % 24 * 3600 + T1 / 60 % 60 * 60 + T1 % 60 + e2) / 86400 =
        dt.day + (dt.hour * 3600 + dt.minute * 60 + dt.second + (e1 + e2)) / 86400 := by
      omega
    rw [harg]
    refine ⟨rfl, rfl, rfl, by omega, by omega, by omega, by omega⟩
  · have hday1 : 1 ≤ dt.day + T1 / 86400 := by omega
    have hnb := normalizeDate_bounds dt.year dt.month (dt.day + T1 / 86400) hm1 hm2 hday1
    have hT2 : (T1 / 3600 % 24 * 3600 + T1 / 60 % 60 * 60 + T1 % 60 + e2) / 86400 = 0 := by
      omega
    rw [hT2, Nat.add_zero,
      normalizeDate_fix _ _ _ hnb.2.2.2,
      show dt.day + (dt.hour * 3600 + dt.minute * 60 + dt.second + (e1 + e2)) / 86400 =
        dt.day + T1 / 86400 from by omega]
    dsimp only
    refine ⟨rfl, rfl, rfl, by omega, by omega, by omega, by omega⟩

/-- The uint8_t cascade composes in the non-truncating regime: ticking `e1`
then `e2` whole seconds equals ticking `e1 + e2` at once, provided the total
stays below 197 so that the seconds accumulator cannot wrap. -/
lemma tick_tick (dt : DateTime) (e1 e2 : Nat) (h : AtRest dt) (hle : e1 + e2 ≤ 196) :
    tick (tick dt e1) e2 = tick dt (e1 + e2) := by
  have hs1 : dt.second + e1 < 256 := by
    obtain ⟨_, _, _, _, _, _, hs, _, _⟩ := h
    omega
  have h1 : AtRest (tick dt e1) := tick_atRest dt e1 h
  rw [tick_eq_tickSpec dt e1 h hs1] at h1 ⊢
  have hs2 : (tickSpec dt e1).second + e2 < 256 := by
    obtain ⟨_, _, _, _, _, _, hs, _, _⟩ := h1
    omega
  rw [tick_eq_tickSpec _ e2 h1 hs2, tickSpec_tickSpec dt e1 e2 h hle,
    ← tick_eq_tickSpec dt (e1 + e2) h
      (by obtain ⟨_, _, _, _, _, _, hs, _, _⟩ := h; omega)]

/-- When the counter has not wrapped past the reference, the unsigned
subtraction in `updateInternalTime` is the plain difference and the reference
update does not wrap either. -/
lemma advance_no_wrap (now : Nat) (s : ClockState) (h1 : s.lastRef ≤ now)
    (h2 : now < U32) :
    advance now s =
      if 1000 ≤ now - s.lastRef then
        { dt := tick s.dt ((now - s.lastRef) / 1000),
          lastRef := s.lastRef + (now - s.lastRef) / 1000 * 1000 }
      else s := by
  have hU32 : U32 = 4294967296 := rfl
  rw [hU32] at h2
  have he : (now % U32 + U32 - s.lastRef % U32) % U32 = now - s.lastRef := by
    rw [hU32]
    omega
  simp only [advance]
  rw [he]
  split
  next hc =>
    have hmod : (s.lastRef + (now - s.lastRef) / 1000 * 1000) % U32 =
        s.lastRef + (now - s.lastRef) / 1000 * 1000 := by
      rw [hU32]
      omega
    rw [hmod]
  next hc => rfl

/-- A call less than one second past the reference is a no-op. -/
lemma advance_noop (now : Nat) (s : ClockState) (h1 : s.lastRef ≤ now)
    (h2 : now < U32) (h3 : now - s.lastRef < 1000) : advance now s = s := by
  rw [advance_no_wrap now s h1 h2, if_neg (by omega)]

/-- Composition of `updateInternalTime` calls: calling at counter
`lastRef + p` and then at `lastRef + q` equals the single call at
`lastRef + q`, for a monotone counter within one 32-bit wrap and a total gap
below 197 seconds. -/
lemma advance_advance (s : ClockState) (p q : Nat) (h : AtRest s.dt)
    (hpq : p ≤ q) (hq : q ≤ 196999) (hU : s.lastRef + q < U32) :
    advance (s.lastRef + q) (advance (s.lastRef + p) s) =
      advance (s.lastRef + q) s := by
  have hU32 : U32 = 4294967296 := rfl
  rw [advance_no_wrap (s.lastRef + p) s (by omega) (by omega),
    Nat.add_sub_cancel_left]
  by_cases hp : 1000 ≤ p
  · rw [if_pos hp]
    rw [advance_no_wrap (s.lastRef + q) _ (by dsimp only; omega) (by omega)]
    rw [advance_no_wrap (s.lastRef + q) s (by omega) (by omega),
      Nat.add_sub_cancel_left]
    dsimp only
    have hsub : s.lastRef + q - (s.lastRef + p / 1000 * 1000) = q - p / 1000 * 1000 := by
      omega
    rw [hsub]
    by_cases h2 : 1000 ≤ q - p / 1000 * 1000
    · rw [if_pos h2, if_pos (by omega : 1000 ≤ q)]
      rw [tick_tick s.dt (p / 1000) ((q - p / 1000 * 1000) / 1000) h (by omega)]
      have hee : p / 1000 + (q - p / 1000 * 1000) / 1000 = q / 1000 := by omega
      rw [hee]
      simp only [ClockState.mk.injEq]
      exact ⟨trivial, by omega⟩
    · rw [if_neg h2, if_pos (by omega : 1000 ≤ q)]
      have hee : q / 1000 = p / 1000 := by omega
      rw [hee]
  · rw [if_neg hp]

/-- Folding `advance` over no times is the identity. -/
lemma advanceAll_nil (s : ClockState) : advanceAll s [] = s := rfl

/-- Folding `advance` over a first time and then the rest. -/
lemma advanceAll_cons (s : ClockState) (t : Nat) (ts : List Nat) :
    advanceAll s (t :: ts) = advanceAll (advance t s) ts := rfl

/-- Generalized cumulative correctness: after one call at offset `p`, running
the remaining delta sequence lands on the single call at the total offset. -/
lemma advanceAll_from (s : ClockState) (h : AtRest s.dt) (ds : List Nat) :
    ∀ p : Nat, p + ds.sum ≤ 196999 → s.lastRef + (p + ds.sum) < U32 →
      advanceAll (advance (s.lastRef + p) s) (stepTimes (s.lastRef + p) ds) =
        advance (s.lastRef + (p + ds.sum)) s := by
  induction ds with
  | nil =>
    intro p h1 h2
    simp only [stepTimes, advanceAll_nil, List.sum_nil, Nat.add_zero]
  | cons d rest ih =>
    intro p h1 h2
    simp only [List.sum_cons] at h1 h2 ⊢
    simp only [stepTimes, advanceAll_cons]
    have hassoc : s.lastRef + p + d = s.lastRef + (p + d) := by omega
    rw [hassoc, advance_advance s p (p + d) h (by omega) (by omega) (by omega)]
    rw [ih (p + d) (by omega) (by omega)]
    rw [show p + d + rest.sum = p + (d + rest.sum) from by omega]

/-- Evaluation: February 29 exists in 2024. -/
lemma normalizeDate_2024_2_29 : normalizeDate 2024 2 29 = (2024, 2, 29) :=
  normalizeDate_fix 2024 2 29 (by decide)

/-- Evaluation: day 29 of February 2023 rolls into March 1. -/
lemma normalizeDate_2023_2_29 : normalizeDate 2023 2 29 = (2023, 3, 1) := by
  unfold normalizeDate
  norm_num [daysInMonth]
  exact normalizeDate_fix 2023 3 1 (by decide)

/-- Evaluation: day 32 of December 2024 rolls into January 1, 2025. -/
lemma normalizeDate_2024_12_32 : normalizeDate 2024 12 32 = (2025, 1, 1) := by
  unfold normalizeDate
  norm_num [daysInMonth]
  exact normalizeDate_fix 2025 1 1 (by decide)

/-- C2: calendar boundary rollovers of `updateInternalTime`: from
2024-02-28 23:59:59 with day-of-week 3 (Wednesday), advancing with 1000 ms
elapsed yields 2024-02-29 00:00:00 with day-of-week 4; from
2023-02-28 23:59:59 the same advance yields 2023-03-01 00:00:00; and from
2024-12-31 23:59:59 it yields 2025-01-01 00:00:00 with the day-of-week
advanced by exactly one (cyclically in 1..7). -/
theorem calendar_boundary_rollovers :
    (advance 1000 ⟨⟨2024, 2, 28, 23, 59, 59, 3⟩, 0⟩).dt = ⟨2024, 2, 29, 0, 0, 0, 4⟩ ∧
    (advance 1000 ⟨⟨2023, 2, 28, 23, 59, 59, 3⟩, 0⟩).dt = ⟨2023, 3, 1, 0, 0, 0, 4⟩ ∧
    (∀ w : Nat, 1 ≤ w → w ≤ 7 →
      (advance 1000 ⟨⟨2024, 12, 31, 23, 59, 59, w⟩, 0⟩).dt =
        ⟨2025, 1, 1, 0, 0, 0, w % 7 + 1⟩) := by
  refine ⟨?_, ?_, ?_⟩
  · simp only [advance, U32]
    norm_num
    rw [tick_eq_tickSpec _ 1 (by decide) (by decide)]
    simp only [tickSpec]
    norm_num [normalizeDate_2024_2_29]
  · simp only [advance, U32]
    norm_num
    rw [tick_eq_tickSpec _ 1 (by decide) (by decide)]
    simp only [tickSpec]
    norm_num [normalizeDate_2023_2_29]
  · intro w hw1 hw7
    have hrest : AtRest ⟨2024, 12, 31, 23, 59, 59, w⟩ := by
      rw [atRest_mk]
      exact ⟨by decide, by decide, by decide, by decide, by decide, by decide,
        by decide, hw1, hw7⟩
    simp only [advance, U32]
    norm_num
    rw [tick_eq_tickSpec _ 1 hrest (by norm_num)]
    simp only [tickSpec]
    norm_num [normalizeDate_2024_12_32]
    omega

/-- C2 witness: the year-end conjunct applied at day-of-week 2 (Tuesday,
the actual day-of-week of 2024-12-31). -/
theorem calendar_boundary_rollovers_witness :
    (advance 1000 ⟨⟨2024, 12, 31, 23, 59, 59, 2⟩, 0⟩).dt =
      ⟨2025, 1, 1, 0, 0, 0, 2 % 7 + 1⟩ :=
  calendar_boundary_rollovers.2.2 2 (by decide) (by decide)

/-- C8: the at-rest range invariant is preserved by one `advance` call for
every value of the millisecond counter: month stays in 1..12, day in
1..daysInMonth(year, month), hour below 24, minute and second below 60, and
day-of-week in 1..7; the rollover cascade never leaves a field out of
range. -/
theorem advance_preserves_atRest (now : Nat) (s : ClockState) (h : AtRest s.dt) :
    AtRest (advance now s).dt := by
  simp only [advance]
  split
  · exact tick_atRest s.dt _ h
  · exact h

/-- C8 witness: the invariant after a concrete call from the initial state. -/
theorem advance_preserves_atRest_witness : AtRest (advance 5500 initialClock).dt :=
  advance_preserves_atRest 5500 initialClock (by decide)

/-- C1 counterexample: the claim fails as stated.  From the initial clock,
one `advance` call with the counter 256000 ms ahead differs from two calls
with deltas 128000 + 128000 ms summing to the same total: the uint8_t seconds
accumulator receives 256 whole seconds in the single call and wraps to 0, so
the DateTime does not move, while the split calls advance it by 4 min 16 s. -/
theorem advance_single_call_loses_seconds :
    advance 256000 (advance 128000 initialClock) ≠ advance 256000 initialClock := by
  decide

/-- C1, amended: cumulative correctness of `advance` in the bounded regime.
For every starting state satisfying the at-rest invariant and every sequence
of non-negative deltas whose total `d` is at most 196999 ms (so no single
call can feed 197 or more whole seconds into the uint8_t seconds accumulator
and wrap it) and which keeps the counter within one 32-bit wrap, calling
`advance` once with the counter moved forward by `d` produces the same
DateTime and the same lastReference as calling it repeatedly at the partial
sums: no seconds are double-counted and no sub-second remainder is lost. -/
theorem advance_cumulative (s : ClockState) (ds : List Nat) (h : AtRest s.dt)
    (hsum : ds.sum ≤ 196999) (hU : s.lastRef + ds.sum < U32) :
    advanceAll s (stepTimes s.lastRef ds) = advance (s.lastRef + ds.sum) s := by
  have h0 := advanceAll_from s h ds 0 (by omega) (by omega)
  rw [Nat.zero_add] at h0
  rw [Nat.add_zero] at h0
  rw [advance_noop s.lastRef s (Nat.le_refl _) (by omega) (by omega)] at h0
  exact h0

/-- C1 witness: concrete instance of the amended cumulative-correctness
theorem with deltas 1500, 800 and 700 ms from the initial clock. -/
theorem advance_cumulative_witness :
    advanceAll initialClock (stepTimes initialClock.lastRef [1500, 800, 700]) =
      advance (initialClock.lastRef + List.sum [1500, 800, 700]) initialClock :=
  advance_cumulative initialClock [1500, 800, 700] (by decide) (by decide) (by decide)

/-- C3: the authoritative-write contract of `currentTimeWrittenHandler` on a
decoded 10-byte payload: when any validated field is out of range (month not
in 1..12, day not in 1..31, hour above 23, minute above 59, second above 59,
day-of-week not in 1..7) the DateTime and lastReference are left completely
unchanged and an out-of-range error is signaled; when all validated fields
are in range, all seven DateTime fields are overwritten with the decoded
values and lastReference is reset to the current millisecond counter. -/
theorem currentTime_write_contract (b0 b1 b2 b3 b4 b5 b6 b7 b8 b9 now : Nat)
    (s : ClockState) :
    currentTimeWrittenHandler [b0, b1, b2, b3, b4, b5, b6, b7, b8, b9] now s =
      if 1 ≤ b2 ∧ b2 ≤ 12 ∧ 1 ≤ b3 ∧ b3 ≤ 31 ∧ b4 ≤ 23 ∧ b5 ≤ 59 ∧ b6 ≤ 59 ∧
         1 ≤ b7 ∧ b7 ≤ 7 then
        ({ dt := { year := b0 ||| (b1 <<< 8), month := b2, day := b3, hour := b4,
                   minute := b5, second := b6, dayOfWeek := b7 },
           lastRef := now }, none)
      else (s, some WriteError.outOfRangeField) :=
  rfl

/-- C6: malformed-payload rejection: every received Current Time write whose
payload length is not exactly 10 bytes is rejected as a format error and the
DateTime and lastReference are left unchanged. -/
theorem malformed_write_rejected (payload : List Nat) (now : Nat) (s : ClockState)
    (h : payload.length ≠ 10) :
    currentTimeWrittenHandler payload now s = (s, some WriteError.malformedPayload) := by
  have hp : parseCurrentTime payload = none := by
    unfold parseCurrentTime
    split
    next b0 b1 b2 b3 b4 b5 b6 b7 fr adj =>
      simp at h
    next => rfl
  simp [currentTimeWrittenHandler, hp]

/-- C6 witness: a 3-byte payload is rejected and the clock is untouched. -/
theorem malformed_write_rejected_witness :
    currentTimeWrittenHandler [1, 2, 3] 777 initialClock =
      (initialClock, some WriteError.malformedPayload) :=
  malformed_write_rejected [1, 2, 3] 777 initialClock (by decide)

/-- C5: encode/decode round-trip: for every DateTime whose fields fit the
layout (year below 65536, other fields below 256), encoding to the 10-byte
Current Time layout and decoding those bytes yields a candidate with the
identical seven fields, the fractions and adjust-reason bytes being ignored
by the decoder. -/
theorem currentTime_roundtrip (dt : DateTime) (hy : dt.year < 65536)
    (_hm : dt.month < 256) (_hd : dt.day < 256) (_hh : dt.hour < 256)
    (_hmin : dt.minute < 256) (_hs : dt.second < 256) (_hw : dt.dayOfWeek < 256) :
    parseCurrentTime (writeCurrentTime dt) = some dt := by
  simp only [writeCurrentTime, parseCurrentTime]
  rw [lor_byte dt.year hy]

/-- C5 witness: round-trip at a concrete DateTime. -/
theorem currentTime_roundtrip_witness :
    parseCurrentTime (writeCurrentTime ⟨2024, 4, 30, 12, 34, 56, 2⟩) =
      some ⟨2024, 4, 30, 12, 34, 56, 2⟩ :=
  currentTime_roundtrip ⟨2024, 4, 30, 12, 34, 56, 2⟩ (by decide) (by decide) (by decide)
    (by decide) (by decide) (by decide) (by decide)

/-- C7: Current Time wire layout on encode: the payload built by
`writeCurrentTime` is exactly 10 bytes, with byte 0 the year mod 256, byte 1
the year div 256 (little-endian u16), bytes 2..7 month, day, hour, minute,
second and day-of-week, and byte 8 (fractions-of-second) always 0. -/
theorem writeCurrentTime_layout (dt : DateTime) (hy : dt.year < 65536) :
    (writeCurrentTime dt).length = 10 ∧
    writeCurrentTime dt =
      [dt.year % 256, dt.year / 256, dt.month, dt.day, dt.hour, dt.minute,
       dt.second, dt.dayOfWeek, 0, 1] := by
  refine ⟨rfl, ?_⟩
  simp only [writeCurrentTime]
  rw [show dt.year / 256 % 256 = dt.year / 256 from by omega]

/-- C7 witness: the layout at a concrete DateTime. -/
theorem writeCurrentTime_layout_witness :
    (writeCurrentTime ⟨2024, 4, 30, 12, 34, 56, 2⟩).length = 10 ∧
    writeCurrentTime ⟨2024, 4, 30, 12, 34, 56, 2⟩ =
      [2024 % 256, 2024 / 256, 4, 30, 12, 34, 56, 2, 0, 1] :=
  writeCurrentTime_layout ⟨2024, 4, 30, 12, 34, 56, 2⟩ (by decide)

/-- C9: permissive write validation: a 10-byte Current Time write is accepted
whenever month is in 1..12, day is in 1..31, hour at most 23, minute at most
59, second at most 59 and day-of-week in 1..7 — with no cross-check of day
against daysInMonth(year, month) and no restriction on the year value — and
is then applied to the clock. -/
theorem permissive_write_validation (b0 b1 b2 b3 b4 b5 b6 b7 b8 b9 now : Nat)
    (s : ClockState)
    (hmo1 : 1 ≤ b2) (hmo2 : b2 ≤ 12) (hda1 : 1 ≤ b3) (hda2 : b3 ≤ 31)
    (hho : b4 ≤ 23) (hmi : b5 ≤ 59) (hse : b6 ≤ 59) (hdw1 : 1 ≤ b7) (hdw2 : b7 ≤ 7) :
    currentTimeWrittenHandler [b0, b1, b2, b3, b4, b5, b6, b7, b8, b9] now s =
      ({ dt := { year := b0 ||| (b1 <<< 8), month := b2, day := b3, hour := b4,
                 minute := b5, second := b6, dayOfWeek := b7 },
         lastRef := now }, none) := by
  simp only [currentTimeWrittenHandler, parseCurrentTime]
  rw [if_pos ⟨hmo1, hmo2, hda1, hda2, hho, hmi, hse, hdw1, hdw2⟩]

/-- C9 witness: a write carrying month 4 and day 31 (April 31, with the other
fields in range) is applied to the clock even though April has 30 days. -/
theorem permissive_write_validation_witness :
    currentTimeWrittenHandler [232, 7, 4, 31, 12, 0, 0, 1, 0, 0] 4242 initialClock =
      ({ dt := { year := 232 ||| (7 <<< 8), month := 4, day := 31, hour := 12,
                 minute := 0, second := 0, dayOfWeek := 1 },
         lastRef := 4242 }, none) :=
  permissive_write_validation 232 7 4 31 12 0 0 1 0 0 4242 initialClock (by decide)
    (by decide) (by decide) (by decide) (by decide) (by decide) (by decide)
    (by decide) (by decide)

/-- C4: link event dispatch: a connect event received while disconnected
marks the machine connected and pushes the snapshot exactly once (Current
Time, Local Time Info and Reference Time Info each written once, in order); a
second connect event received in the resulting state — from any peer —
changes nothing and triggers no additional push; a disconnect event received
while disconnected causes no transition. -/
theorem link_event_dispatch (central : Nat) (s : LinkState)
    (h : s.centralConnected = false) :
    (blePeripheralConnectHandler central s).1.centralConnected = true ∧
    (blePeripheralConnectHandler central s).2 =
      [BleEffect.writeCurrentTimeChar, BleEffect.writeLocalTimeInfoChar,
       BleEffect.writeRefTimeInfoChar] ∧
    (∀ c2 : Nat,
      blePeripheralConnectHandler c2 (blePeripheralConnectHandler central s).1 =
        ((blePeripheralConnectHandler central s).1, [])) ∧
    (∀ c3 : Nat, ∀ s2 : LinkState, s2.centralConnected = false →
      (blePeripheralDisconnectHandler c3 s2).1.centralConnected = false) := by
  refine ⟨?_, ?_, ?_, ?_⟩
  · simp [blePeripheralConnectHandler, h]
  · simp [blePeripheralConnectHandler, h]
  · intro c2
    simp [blePeripheralConnectHandler, h]
  · intro c3 s2 h2
    simp [blePeripheralDisconnectHandler, h2]

/-- C4 witness: the dispatch behavior from the initial disconnected state. -/
theorem link_event_dispatch_witness :
    (blePeripheralConnectHandler 5 ⟨false, 0, false, true⟩).1.centralConnected = true ∧
    (blePeripheralConnectHandler 5 ⟨false, 0, false, true⟩).2 =
      [BleEffect.writeCurrentTimeChar, BleEffect.writeLocalTimeInfoChar,
       BleEffect.writeRefTimeInfoChar] ∧
    (∀ c2 : Nat,
      blePeripheralConnectHandler c2 (blePeripheralConnectHandler 5 ⟨false, 0, false, true⟩).1 =
        ((blePeripheralConnectHandler 5 ⟨false, 0, false, true⟩).1, [])) ∧
    (∀ c3 : Nat, ∀ s2 : LinkState, s2.centralConnected = false →
      (blePeripheralDisconnectHandler c3 s2).1.centralConnected = false) :=
  link_event_dispatch 5 ⟨false, 0, false, true⟩ (by decide)

/-- C10: ignored link events still mutate the indicator: a connect event
received while already connected changes neither the connected flag nor
triggers any characteristic push, yet still forces the LED on and disables
the idle-blink task; a disconnect event received while already disconnected
still forces the LED off — these side effects run before the duplicate-event
check. -/
theorem indicator_side_effects (central : Nat) (s t : LinkState)
    (hs : s.centralConnected = true) (ht : t.centralConnected = false) :
    (blePeripheralConnectHandler central s).1.ledState = true ∧
    (blePeripheralConnectHandler central s).1.tLedBlinkEnabled = false ∧
    (blePeripheralConnectHandler central s).1.centralConnected = s.centralConnected ∧
    (blePeripheralConnectHandler central s).2 = [] ∧
    (blePeripheralDisconnectHandler central t).1.ledState = false := by
  simp [blePeripheralConnectHandler, blePeripheralDisconnectHandler, hs, ht]

/-- C10 witness: concrete duplicate events, starting from states where the
LED and the blink task are in the opposite configuration. -/
theorem indicator_side_effects_witness :
    (blePeripheralConnectHandler 9 ⟨true, 1, false, true⟩).1.ledState = true ∧
    (blePeripheralConnectHandler 9 ⟨true, 1, false, true⟩).1.tLedBlinkEnabled = false ∧
    (blePeripheralConnectHandler 9 ⟨true, 1, false, true⟩).1.centralConnected =
      (⟨true, 1, false, true⟩ : LinkState).centralConnected ∧
    (blePeripheralConnectHandler 9 ⟨true, 1, false, true⟩).2 = [] ∧
    (blePeripheralDisconnectHandler 9 ⟨false, 0, true, false⟩).1.ledState = false :=
  indicator_side_effects 9 ⟨true, 1, false, true⟩ ⟨false, 0, true, false⟩
    (by decide) (by decide)

end Watch
